import Mathlib

/-!
Verification of the ComfyUI-PromptHistoryGallery core: a shallow embedding of
the entry store (storage.py), the correlation registry (registry.py), the
history watcher loop (history_watcher.py) and the completion-handling file
extraction (hooks.py), together with theorems settling the specification
claims about them.

Modelling conventions:
* SQLite TEXT timestamps (UTC ISO strings, compared lexicographically by SQL)
  are modelled as naturals; each operation that reads the wall clock takes the
  current instant as an explicit argument.
* Python dicts are modelled as insertion-ordered association lists; Python
  dict equality is order-insensitive, while JSON serialization of a dict is
  order-sensitive, exactly as in the source.
* SQL ORDER BY is modelled with the stable List.mergeSort; rows tied on every
  sort key keep their prior relative order, one admissible SQLite behaviour.
* The single metadata TEXT column is modelled by a pair of fields, the stored
  serialized string together with its parse; json.loads after json.dumps is
  the identity on the modelled value domain, so both fields are kept in sync
  by construction.
-/

namespace PHG

/-- Scalar JSON-compatible metadata values (the value domain exercised by the
claims). -/
inductive MVal where
  | mnull
  | mbool (b : Bool)
  | mnum (n : Int)
  | mstr (s : String)
deriving DecidableEq

/-- Python value equality on metadata values, including the bool and int
cross-equality of Python (True == 1, False == 0). -/
def pyEqV : MVal → MVal → Bool
  | .mnull, .mnull => true
  | .mbool a, .mbool b => a == b
  | .mbool a, .mnum n => (if a then (1 : Int) else 0) == n
  | .mnum n, .mbool b => n == (if b then (1 : Int) else 0)
  | .mnum a, .mnum b => a == b
  | .mstr a, .mstr b => a == b
  | _, _ => false

/-- A metadata map: a Python dict modelled as an insertion-ordered association
list with distinct keys. -/
abbrev Metadata := List (String × MVal)

/-- Python dict lookup: dict.get on the association list. -/
def dictGet (k : String) : Metadata → Option MVal
  | [] => none
  | (k2, v) :: rest => if k2 == k then some v else dictGet k rest

/-- Python dict assignment d[k] = v: replace in place when the key is present,
append otherwise. -/
def dictSet (k : String) (v : MVal) : Metadata → Metadata
  | [] => [(k, v)]
  | (k2, w) :: rest => if k2 == k then (k2, v) :: rest else (k2, w) :: dictSet k v rest

/-- Python dict equality: same size and every key of the first maps to an
equal value in the second; insertion order does not matter. -/
def pyEqM (a b : Metadata) : Bool :=
  a.length == b.length &&
    a.all (fun kv =>
      match dictGet kv.1 b with
      | some w => pyEqV kv.2 w
      | none => false)

/-- Rendering of one scalar value by json.dumps. -/
def serializeV : MVal → String
  | .mnull => "null"
  | .mbool true => "true"
  | .mbool false => "false"
  | .mnum n => toString n
  | .mstr s => "\"" ++ s ++ "\""

/-- serialize_metadata (normalizers.py): json.dumps of the dict, which renders
the keys in insertion order, so order-different but equal dicts serialize to
different byte strings. -/
def serialize_metadata (m : Metadata) : String :=
  "\x7b" ++ String.intercalate ", "
      (m.map (fun kv => "\"" ++ kv.1 ++ "\": " ++ serializeV kv.2)) ++ "\x7d"

/-- normalize_metadata (normalizers.py) on the dict-or-None input shapes:
None becomes the empty dict, a dict is copied. -/
def normalize_metadata : Option Metadata → Metadata
  | some m => m
  | none => []

/-- One row of the prompt_history table. metaStr is the stored serialized
metadata TEXT, metaVal its parse (kept in sync by construction). -/
structure Row where
  id : String
  created_at : Nat
  last_used_at : Nat
  prompt : String
  tags : String
  metaStr : String
  metaVal : Metadata
deriving DecidableEq

/-- One row of the prompt_history_output table; rowid is the autoincrement
primary key. -/
structure OutRow where
  rowid : Nat
  entry_id : String
  filename : String
  subfolder : String
  type : String
deriving DecidableEq

/-- The database state: both tables in physical (insertion) order, the output
autoincrement counter, and a counter generating fresh uuids. -/
structure Store where
  entries : List Row
  outputs : List OutRow
  next_output_rowid : Nat
  next_uuid : Nat
deriving DecidableEq

/-- A fresh empty database. -/
def emptyStore : Store :=
  { entries := [], outputs := [], next_output_rowid := 1, next_uuid := 0 }

/-- Generated entry ids (uuid4 in the source; a counter-derived opaque string
here). -/
def mkId (n : Nat) : String := "uuid-" ++ toString n

/-- Python str.strip(): drop leading and trailing whitespace. -/
def stripStr (s : String) : String :=
  ⟨((s.data.dropWhile Char.isWhitespace).reverse.dropWhile Char.isWhitespace).reverse⟩

/-- Strict lexicographic order on code points, the SQLite BINARY collation
used by ORDER BY on TEXT columns (on UTF-8 strings byte order and code-point
order agree). -/
def strLTaux : List Char → List Char → Bool
  | [], [] => false
  | [], _ :: _ => true
  | _ :: _, [] => false
  | a :: as, b :: bs => if a = b then strLTaux as bs else decide (a.toNat < b.toNat)

/-- Strict BINARY-collation comparison of two strings. -/
def strLT (a b : String) : Bool := strLTaux a.data b.data

/-- The fallback scan bound of PromptHistoryStorage (_FALLBACK_LOOKUP_LIMIT). -/
def FALLBACK_LOOKUP_LIMIT : Nat := 25

/-- Stable insertion of x into a sorted list: x goes after every element that
must strictly precede it, so elements tied with x keep their prior relative
order. -/
def insertBy {α : Type} (lt : α → α → Bool) (x : α) : List α → List α
  | [] => [x]
  | y :: ys => if lt y x then y :: insertBy lt x ys else x :: y :: ys

/-- Stable sort by a strict precedence predicate, the model of SQL ORDER BY:
rows tied on every sort key keep their prior relative order. -/
def isortBy {α : Type} (lt : α → α → Bool) : List α → List α
  | [] => []
  | x :: xs => insertBy lt x (isortBy lt xs)

/-- Strict precedence of ORDER BY last_used_at DESC, created_at DESC. Used by
the dedup fallback scan and by the outer ordering of list, which both sort by
exactly these two keys. -/
def freshLT (a b : Row) : Bool :=
  decide (b.last_used_at < a.last_used_at) ||
    (a.last_used_at == b.last_used_at && decide (b.created_at < a.created_at))

/-- Strict precedence of ORDER BY last_used_at DESC alone (the fast path). -/
def luLT (a b : Row) : Bool :=
  decide (b.last_used_at < a.last_used_at)

/-- PromptHistoryStorage._find_entry_locked: first an indexed exact match on
(prompt, serialized metadata) taking the most recently used row, then a
fallback over the FALLBACK_LOOKUP_LIMIT most recently used rows with the same
prompt text, compared by Python dict equality on the parsed metadata. -/
def find_entry_locked (s : Store) (prompt : String) (metadata : Metadata) : Option Row :=
  match (isortBy luLT (s.entries.filter
      (fun r => r.prompt == prompt && r.metaStr == serialize_metadata metadata))).head? with
  | some r => some r
  | none =>
    ((isortBy freshLT (s.entries.filter (fun r => r.prompt == prompt))).take
        FALLBACK_LOOKUP_LIMIT).find? (fun r => pyEqM r.metaVal metadata)

/-- The freshly built row inserted by _create_entry_locked. -/
def mkRow (s : Store) (now : Nat) (prompt : String) (metadata : Metadata) : Row :=
  { id := mkId s.next_uuid
    created_at := now
    last_used_at := now
    prompt := prompt
    tags := "[]"
    metaStr := serialize_metadata metadata
    metaVal := metadata }

/-- PromptHistoryStorage._create_entry_locked: insert a fresh row whose
created and last-used timestamps are both the current instant. -/
def create_entry_locked (s : Store) (now : Nat) (prompt : String) (metadata : Metadata) :
    Row × Store :=
  (mkRow s now prompt metadata,
    { s with entries := s.entries ++ [mkRow s now prompt metadata],
             next_uuid := s.next_uuid + 1 })

/-- Result of ensure_entry: the entry, the created flag, the new state. -/
structure EnsureResult where
  entry : Row
  created : Bool
  store : Store
deriving DecidableEq

/-- PromptHistoryStorage.ensure_entry: dedup-aware upsert. -/
def ensure_entry (s : Store) (now : Nat) (prompt : String) (metadata : Option Metadata) :
    EnsureResult :=
  let incoming := normalize_metadata metadata
  match find_entry_locked s prompt incoming with
  | some r => ⟨r, false, s⟩
  | none =>
    let rs := create_entry_locked s now prompt incoming
    ⟨rs.1, true, rs.2⟩

/-- PromptHistoryStorage.append: unconditional insert bypassing dedup. -/
def append (s : Store) (now : Nat) (prompt : String) (metadata : Option Metadata) :
    Row × Store :=
  create_entry_locked s now prompt (normalize_metadata metadata)

/-- The merge loop of update_metadata: walk the update items in order, write a
key only when it is new or its stored value Python-differs from the supplied
one, and remember whether anything changed. A missing key reads as None via
dict.get, which compares equal only to null. -/
def merge_metadata : Metadata → Metadata → Metadata × Bool
  | cur, [] => (cur, false)
  | cur, kv :: rest =>
    if pyEqV ((dictGet kv.1 cur).getD .mnull) kv.2 then merge_metadata cur rest
    else ((merge_metadata (dictSet kv.1 kv.2 cur) rest).1, true)

/-- PromptHistoryStorage.update_metadata: no-op on an empty id or update, or
on a missing entry; otherwise merge and rewrite the metadata column only when
the merge changed something. -/
def update_metadata (s : Store) (entry_id : String) (metadata_update : Metadata) : Store :=
  if entry_id == "" || metadata_update.isEmpty then s
  else
    match s.entries.find? (fun r => r.id == entry_id) with
    | none => s
    | some row =>
      if (merge_metadata row.metaVal metadata_update).2 then
        { s with
          entries := s.entries.map
            (fun r =>
              if r.id == entry_id then
                { r with
                  metaStr :=
                    serialize_metadata (merge_metadata row.metaVal metadata_update).1,
                  metaVal := (merge_metadata row.metaVal metadata_update).1 }
              else r) }
      else s

/-- PromptHistoryStorage.touch_entries: set last_used_at of every listed
(non-empty) id to the current instant, one shared timestamp for the batch. -/
def touch_entries (s : Store) (now : Nat) (entry_ids : List String) : Store :=
  let targets := entry_ids.filter (fun i => !(i == ""))
  if targets.isEmpty then s
  else
    { s with
      entries := s.entries.map
        (fun r => if targets.contains r.id then { r with last_used_at := now } else r) }

/-- PromptHistoryStorage.delete: look up the prompt text of the supplied id,
then delete every entry carrying that prompt text (the outputs of each
deleted entry go with it through ON DELETE CASCADE); report whether any row
was removed. A missing id deletes nothing and reports false. -/
def delete (s : Store) (entry_id : String) : Bool × Store :=
  match s.entries.find? (fun r => r.id == entry_id) with
  | none => (false, s)
  | some row =>
    let deleted := (s.entries.filter (fun r => r.prompt == row.prompt)).map (fun r => r.id)
    (decide (0 < deleted.length),
      { s with
        entries := s.entries.filter (fun r => !(r.prompt == row.prompt)),
        outputs := s.outputs.filter (fun o => !(deleted.contains o.entry_id)) })

/-- PromptHistoryStorage.clear: remove every output and entry. -/
def clear (s : Store) : Store :=
  { s with entries := [], outputs := [] }

/-- The normalized shape of one generated file (models.OutputRecord). -/
structure OutputRecord where
  filename : String
  subfolder : String := ""
  type : String := ""
deriving DecidableEq

/-- The loose file payload shapes accepted from the host: a bare string, a
dict with optional fields (none models both an absent key and None), or
anything else. -/
inductive FileInfo where
  | str (s : String)
  | dict (filename : Option String) (subfolder : Option String)
      (type : Option String) (kind : Option String)
  | other
deriving DecidableEq

/-- normalize_output_payload (normalizers.py): a bare non-empty string is a
filename; a dict needs a truthy filename, takes subfolder with empty default
and takes type, falling back to kind; anything else is dropped. -/
def normalize_output_payload : FileInfo → Option OutputRecord
  | .str s =>
    let filename := stripStr s
    if filename == "" then none else some { filename := filename }
  | .dict fn sf ty kd =>
    match fn with
    | none => none
    | some raw =>
      if raw == "" then none
      else
        let filename := stripStr raw
        if filename == "" then none
        else
          let tyv := ty.getD ""
          let kdv := kd.getD ""
          some
            { filename := filename
              subfolder := stripStr (sf.getD "")
              type := stripStr (if tyv == "" then kdv else tyv) }
  | .other => none

/-- One INSERT OR IGNORE into prompt_history_output: a duplicate of the
UNIQUE (entry_id, filename, subfolder, type) tuple is silently skipped, while
an entry_id absent from prompt_history violates the foreign key, which OR
IGNORE does not cover, so the statement raises. -/
def insert_or_ignore_output (s : Store) (eid fn sf ty : String) : Except Unit Store :=
  if s.outputs.any
      (fun o => o.entry_id == eid && o.filename == fn && o.subfolder == sf && o.type == ty) then
    .ok s
  else if s.entries.any (fun r => r.id == eid) then
    .ok
      { s with
        outputs :=
          s.outputs ++
            [{ rowid := s.next_output_rowid, entry_id := eid, filename := fn,
               subfolder := sf, type := ty }]
        next_output_rowid := s.next_output_rowid + 1 }
  else .error ()

/-- PromptHistoryStorage.add_outputs_for_entries: normalize the payloads,
drop unparseable ones, then insert-or-ignore each (entry, output) pair inside
one transaction. An error leaves the caller with the rolled-back original
state. -/
def add_outputs_for_entries (s : Store) (entry_ids : List String) (files : List FileInfo) :
    Except Unit Store :=
  let normalized := files.filterMap normalize_output_payload
  if normalized.isEmpty then .ok s
  else
    let targets := entry_ids.filter (fun i => !(i == ""))
    if targets.isEmpty then .ok s
    else
      targets.foldlM
        (fun acc eid =>
          normalized.foldlM
            (fun acc2 item =>
              insert_or_ignore_output acc2 eid item.filename item.subfolder item.type)
            acc)
        s

/-- The number of stored output rows carrying a given identity tuple
(entry id, filename, subfolder, type). -/
def output_tuple_count (s : Store) (eid fn sf ty : String) : Nat :=
  (s.outputs.filter
      (fun o => o.entry_id == eid && o.filename == fn && o.subfolder == sf && o.type == ty)).length

/-- Strict precedence of the window-function pass of list: PARTITION BY
prompt (ascending) then ORDER BY last_used_at DESC, created_at DESC, id DESC. -/
def partLT (a b : Row) : Bool :=
  if a.prompt == b.prompt then
    if a.last_used_at == b.last_used_at then
      if a.created_at == b.created_at then strLT b.id a.id
      else decide (b.created_at < a.created_at)
    else decide (b.last_used_at < a.last_used_at)
  else strLT a.prompt b.prompt

/-- Keep the first row of each prompt run of an already partition-sorted row
sequence: exactly the rows the window function ranks 1. -/
def dedupFirst : List String → List Row → List Row
  | _, [] => []
  | seen, r :: rs =>
    if seen.contains r.prompt then dedupFirst seen rs
    else r :: dedupFirst (r.prompt :: seen) rs

/-- The rows of rank 1 in the window subquery of list: one representative per
prompt, the most recently used (ties by created_at, then id, descending). -/
def rank1_rows (s : Store) : List Row :=
  dedupFirst [] (isortBy partLT s.entries)

/-- The row sequence returned by the SQL of list: representatives ordered by
last_used_at DESC, created_at DESC (no further key), then LIMIT. -/
def list_query (s : Store) (limit : Option Nat) : List Row :=
  let ordered := isortBy freshLT (rank1_rows s)
  match limit with
  | some n => ordered.take n
  | none => ordered

/-- A record built by _fetch_outputs_by_prompt: filename plus the subfolder,
type and entry_id keys, each present only when truthy. -/
structure OutDict where
  filename : String
  subfolder : Option String
  type : Option String
  entry_id : Option String
deriving DecidableEq

/-- Convert one output row to its listing record, omitting falsy fields. -/
def mkOutDict (o : OutRow) : OutDict :=
  { filename := o.filename
    subfolder := if o.subfolder == "" then none else some o.subfolder
    type := if o.type == "" then none else some o.type
    entry_id := if o.entry_id == "" then none else some o.entry_id }

/-- PromptHistoryStorage._fetch_outputs_by_prompt for one prompt: join the
output table against the entry table on entry_id, keep the rows of every
entry with this prompt text, ordered by output rowid. -/
def fetch_outputs_for_prompt (s : Store) (p : String) : List OutDict :=
  (isortBy (fun a b => decide (a.rowid < b.rowid)) s.outputs).flatMap
    (fun o =>
      (s.entries.filter (fun r => r.id == o.entry_id && r.prompt == p)).map
        (fun _ => mkOutDict o))

/-- Keep-first deduplication of a string list (the id set collected from the
fetched records; Python set iteration order is unspecified, first-occurrence
order is one admissible choice). -/
def dedupStr : List String → List String
  | [] => []
  | x :: xs => if xs.contains x then dedupStr xs else x :: dedupStr xs

/-- One listed entry as returned by PromptHistoryStorage.list. The reserved
_phg_entry_metadata key injected into the metadata dict holds a map of maps,
modelled by the separate entry_metadata field. -/
structure ListedEntry where
  id : String
  created_at : Nat
  last_used_at : Nat
  prompt : String
  metadata : Metadata
  files : List OutDict
  entry_metadata : List (String × Metadata)
deriving DecidableEq

/-- PromptHistoryStorage.list: the deduplicated, freshness-ordered rows, each
carrying the joined outputs of every entry sharing its prompt text and the
per-entry metadata of the entries contributing those outputs. -/
def list (s : Store) (limit : Option Nat) : List ListedEntry :=
  (list_query s limit).map
    (fun row =>
      let files := fetch_outputs_for_prompt s row.prompt
      let prompt_entry_ids := dedupStr (files.filterMap (fun d => d.entry_id))
      { id := row.id
        created_at := row.created_at
        last_used_at := row.last_used_at
        prompt := row.prompt
        metadata := row.metaVal
        files := files
        entry_metadata :=
          if files.isEmpty then []
          else
            prompt_entry_ids.filterMap
              (fun eid =>
                (s.entries.find? (fun r => r.id == eid)).map
                  (fun r => (eid, r.metaVal))) })

/-- The in-memory correlation registry (registry.py): a map from job id to
the bucket of entry ids registered during that execution. -/
abbrev Registry := List (String × List String)

/-- register_prompt_entry: append the entry id to the bucket of the job id;
a missing or empty job id is a no-op. -/
def register_prompt_entry (reg : Registry) (prompt_id : Option String) (entry_id : String) :
    Registry :=
  match prompt_id with
  | none => reg
  | some pid =>
    if pid == "" then reg
    else if reg.any (fun kv => kv.1 == pid) then
      reg.map (fun kv => if kv.1 == pid then (kv.1, kv.2 ++ [entry_id]) else kv)
    else reg ++ [(pid, [entry_id])]

/-- consume_prompt_entries: atomically pop and return the bucket of the job
id; a missing, empty or never-registered id yields the empty bucket and
leaves the registry unchanged. -/
def consume_prompt_entries (reg : Registry) (prompt_id : Option String) :
    List String × Registry :=
  match prompt_id with
  | none => ([], reg)
  | some pid =>
    if pid == "" then ([], reg)
    else
      match reg.find? (fun kv => kv.1 == pid) with
      | none => ([], reg)
      | some kv => (kv.2, reg.filter (fun kv2 => !(kv2.1 == pid)))

/-- The per-window loop body of _HistoryWatcher._run: walk the fetched
history items, record every id into the window id set, skip already-processed
ids, and otherwise invoke the completion handler (whose exceptions are caught
and do not keep the id from being marked processed) and mark the id. Returns
the accumulated window ids, the grown processed set and the handler state.
The handler is the injected completion handler, abstract here because its
effect never reaches the processed set. -/
def pass_loop {α σ : Type} (handler : String → α → σ → σ) :
    List String → List String → List (String × α) → σ → List String × List String × σ
  | processed, wids, [], st => (wids, processed, st)
  | processed, wids, (pid, payload) :: rest, st =>
    let wids2 := if wids.contains pid then wids else wids ++ [pid]
    if processed.contains pid then pass_loop handler processed wids2 rest st
    else pass_loop handler (processed ++ [pid]) wids2 rest (handler pid payload st)

/-- One completed iteration of _HistoryWatcher._run over a fetched window:
run the loop body over the items, then intersect the processed set with the
window id set. -/
def run_pass {α σ : Type} (handler : String → α → σ → σ) (processed : List String)
    (window : List (String × α)) (st : σ) : List String × σ :=
  let r := pass_loop handler processed [] window st
  (r.2.1.filter (fun pid => r.1.contains pid), r.2.2)

/-- The per-key value of one node output section: absent, present but not a
list, or a list of file payloads. -/
inductive EntriesV where
  | absent
  | notList
  | list (items : List FileInfo)
deriving DecidableEq

/-- One value of the per-node outputs mapping that is a dict: its images and
files keys. -/
structure NodeOut where
  images : EntriesV
  files : EntriesV
deriving DecidableEq

/-- The completion payload shape consumed by _extract_generated_files: not a
dict at all, a dict without a dict-valued outputs key, or the values of the
outputs dict (none models a non-dict node value). -/
inductive HistResult where
  | notDict
  | noOutputs
  | withOutputs (nodes : List (Option NodeOut))
deriving DecidableEq

/-- The items of one per-key value when it is a list, else nothing. -/
def entriesItems : EntriesV → List FileInfo
  | .list items => items
  | _ => []

/-- The collection phase of _extract_generated_files: for every node of the
outputs section, normalize the entries under images then files, dropping the
unparseable ones. -/
def collect_generated (hr : HistResult) : List OutputRecord :=
  match hr with
  | .notDict => []
  | .noOutputs => []
  | .withOutputs nodes =>
    nodes.flatMap
      (fun node? =>
        match node? with
        | none => []
        | some node =>
          (entriesItems node.images ++ entriesItems node.files).filterMap
            normalize_output_payload)

/-- _extract_generated_files (hooks.py): collect, then apply the saved-over-
preview heuristic: when any collected record is tagged output, keep only the
records tagged output. -/
def extract_generated_files (hr : HistResult) : List OutputRecord :=
  let collected := collect_generated hr
  if collected.any (fun item => item.type == "output") then
    collected.filter (fun item => item.type == "output")
  else collected

/-- Metadata literal with keys in the order a then b. -/
def mdAB : Metadata := [("a", .mnum 1), ("b", .mnum 2)]

/-- The same metadata map with the keys supplied in the order b then a. -/
def mdBA : Metadata := [("b", .mnum 2), ("a", .mnum 1)]

/-- A store holding one entry for prompt p with metadata mdAB followed by
FALLBACK_LOOKUP_LIMIT more recently used entries for the same prompt with
pairwise different metadata, built by record-prompt events at increasing
instants. -/
def c2Store : Store :=
  (List.range FALLBACK_LOOKUP_LIMIT).foldl
    (fun s k => (ensure_entry s (k + 1) "p" (some [("filler", .mnum (Int.ofNat k))])).store)
    (ensure_entry emptyStore 0 "p" (some mdAB)).store

/-- A store holding two entries sharing prompt p with different metadata,
built by two record-prompt events. -/
def c1Store : Store :=
  (ensure_entry (ensure_entry emptyStore 0 "p" (some mdAB)).store 1 "p"
      (some [("x", .mnum 9)])).store

/-- A store state with three entries of distinct prompts all tied on both
timestamps (reachable, e.g. through one touch_entries batch), whose ids are
ordered by neither ascending nor descending id along prompt order. -/
def c6Store : Store :=
  { entries :=
      [ { id := "m2", created_at := 5, last_used_at := 5, prompt := "a", tags := "[]",
          metaStr := serialize_metadata [], metaVal := [] },
        { id := "m1", created_at := 5, last_used_at := 5, prompt := "b", tags := "[]",
          metaStr := serialize_metadata [], metaVal := [] },
        { id := "m3", created_at := 5, last_used_at := 5, prompt := "c", tags := "[]",
          metaStr := serialize_metadata [], metaVal := [] } ]
    outputs := []
    next_output_rowid := 1
    next_uuid := 4 }

/-- A completion payload with one node owning one saved image and one image
with the empty default tag. -/
def c5Hist : HistResult :=
  .withOutputs
    [some
        { images :=
            .list
              [ .dict (some "x.png") none (some "output") none,
                .dict (some "z.png") none none none ]
          files := .absent }]

/-- The single listed entry of c1Store: the more recently used of the two
entries sharing prompt p represents the group. -/
def c10Le : ListedEntry :=
  { id := "uuid-1", created_at := 1, last_used_at := 1, prompt := "p",
    metadata := [("x", .mnum 9)], files := [], entry_metadata := [] }

theorem char_toNat_inj {a b : Char} (h : a.toNat = b.toNat) : a = b := by
  have ha := Char.ofNat_toNat a
  rw [h, Char.ofNat_toNat b] at ha
  exact ha.symm

theorem strLTaux_asymm : ∀ as bs, strLTaux as bs = true → strLTaux bs as = false
  | [], [] => by simp [strLTaux]
  | [], _ :: _ => by simp [strLTaux]
  | _ :: _, [] => by simp [strLTaux]
  | a :: as, b :: bs => by
    simp only [strLTaux]
    by_cases hab : a = b
    · subst hab
      simp only [if_pos rfl]
      exact strLTaux_asymm as bs
    · intro h
      rw [if_neg hab] at h
      rw [if_neg (Ne.symm hab), Bool.eq_false_iff]
      intro h2
      simp only [decide_eq_true_eq] at h h2
      omega

theorem strLTaux_conn : ∀ as bs, strLTaux as bs = false → strLTaux bs as = false → as = bs
  | [], [], _, _ => rfl
  | [], _ :: _, h, _ => by simp [strLTaux] at h
  | _ :: _, [], _, h2 => by simp [strLTaux] at h2
  | a :: as, b :: bs, h, h2 => by
    by_cases hab : a = b
    · subst hab
      simp only [strLTaux, if_pos rfl] at h h2
      rw [strLTaux_conn as bs h h2]
    · rw [strLTaux, if_neg hab] at h
      rw [strLTaux, if_neg (Ne.symm hab)] at h2
      simp only [decide_eq_false_iff_not] at h h2
      exact absurd (char_toNat_inj (by omega)) hab

theorem strLTaux_trans :
    ∀ as bs cs, strLTaux as bs = true → strLTaux bs cs = true → strLTaux as cs = true
  | [], _ :: _, _ :: _, _, _ => by simp [strLTaux]
  | [], [], _, h, _ => by simp [strLTaux] at h
  | [], _ :: _, [], _, h2 => by simp [strLTaux] at h2
  | _ :: _, [], _, h, _ => by simp [strLTaux] at h
  | _ :: _, _ :: _, [], _, h2 => by simp [strLTaux] at h2
  | a :: as, b :: bs, c :: cs, h, h2 => by
    by_cases hab : a = b <;> by_cases hbc : b = c
    · subst hab; subst hbc
      simp only [strLTaux, if_pos rfl] at h h2 ⊢
      exact strLTaux_trans as bs cs h h2
    · subst hab
      rw [strLTaux, if_neg hbc] at h2
      rw [strLTaux, if_neg hbc]
      exact h2
    · subst hbc
      rw [strLTaux, if_neg hab] at h
      rw [strLTaux, if_neg hab]
      exact h
    · rw [strLTaux, if_neg hab] at h
      rw [strLTaux, if_neg hbc] at h2
      simp only [decide_eq_true_eq] at h h2
      rw [strLTaux]
      by_cases hac : a = c
      · subst hac
        omega
      · rw [if_neg hac]
        simp only [decide_eq_true_eq]
        omega

theorem strLT_asymm {a b : String} (h : strLT a b = true) : strLT b a = false :=
  strLTaux_asymm a.data b.data h

theorem strLT_conn {a b : String} (h : strLT a b = false) (h2 : strLT b a = false) : a = b := by
  cases a with
  | mk da =>
    cases b with
    | mk db =>
      rw [strLTaux_conn da db h h2]

theorem strLT_trans {a b c : String} (h : strLT a b = true) (h2 : strLT b c = true) :
    strLT a c = true :=
  strLTaux_trans a.data b.data c.data h h2

theorem strLT_negtrans {a b c : String} (h : strLT c b = false) (h2 : strLT b a = false) :
    strLT c a = false := by
  rw [Bool.eq_false_iff]
  intro h3
  rcases hcb : strLT b c with _ | _
  · have hbc : b = c := strLT_conn hcb h
    subst hbc
    rw [h3] at h2
    simp at h2
  · have h4 := strLT_trans hcb h3
    rw [h4] at h2
    simp at h2

theorem insertBy_perm {α : Type} (lt : α → α → Bool) (x : α) :
    ∀ l : List α, List.Perm (insertBy lt x l) (x :: l)
  | [] => List.Perm.refl _
  | y :: ys => by
    simp only [insertBy]
    by_cases h : lt y x = true
    · rw [if_pos h]
      exact ((insertBy_perm lt x ys).cons y).trans (List.Perm.swap x y ys)
    · rw [if_neg h]

theorem isortBy_perm {α : Type} (lt : α → α → Bool) :
    ∀ l : List α, List.Perm (isortBy lt l) l
  | [] => List.Perm.refl _
  | x :: xs => (insertBy_perm lt x (isortBy lt xs)).trans ((isortBy_perm lt xs).cons x)

theorem mem_isortBy {α : Type} {lt : α → α → Bool} {l : List α} {y : α} :
    y ∈ isortBy lt l ↔ y ∈ l :=
  (isortBy_perm lt l).mem_iff

theorem isortBy_eq_nil_iff {α : Type} {lt : α → α → Bool} {l : List α} :
    isortBy lt l = [] ↔ l = [] := by
  constructor
  · intro h
    have hlen := (isortBy_perm lt l).length_eq
    rw [h] at hlen
    exact List.length_eq_zero.mp hlen.symm
  · intro h
    subst h
    rfl

theorem pairwise_insertBy {α : Type} {lt : α → α → Bool}
    (asym : ∀ a b, lt a b = true → lt b a = false)
    (negtrans : ∀ a b c, lt c b = false → lt b a = false → lt c a = false) (x : α) :
    ∀ {l : List α}, l.Pairwise (fun a b => lt b a = false) →
      (insertBy lt x l).Pairwise (fun a b => lt b a = false)
  | [], _ => by simp [insertBy]
  | y :: ys, h => by
    rw [List.pairwise_cons] at h
    simp only [insertBy]
    by_cases hyx : lt y x = true
    · rw [if_pos hyx, List.pairwise_cons]
      refine ⟨fun z hz => ?_, pairwise_insertBy asym negtrans x h.2⟩
      rcases List.mem_cons.mp ((insertBy_perm lt x ys).mem_iff.mp hz) with hz2 | hz2
      · subst hz2
        exact asym y z hyx
      · exact h.1 z hz2
    · rw [if_neg hyx, List.pairwise_cons]
      rw [Bool.not_eq_true] at hyx
      refine ⟨fun z hz => ?_, List.pairwise_cons.mpr h⟩
      rcases List.mem_cons.mp hz with hz2 | hz2
      · subst hz2
        exact hyx
      · exact negtrans x y z (h.1 z hz2) hyx

theorem pairwise_isortBy {α : Type} {lt : α → α → Bool}
    (asym : ∀ a b, lt a b = true → lt b a = false)
    (negtrans : ∀ a b c, lt c b = false → lt b a = false → lt c a = false) :
    ∀ l : List α, (isortBy lt l).Pairwise (fun a b => lt b a = false)
  | [] => List.Pairwise.nil
  | x :: xs => pairwise_insertBy asym negtrans x (pairwise_isortBy asym negtrans xs)

theorem freshLT_asymm (a b : Row) (h : freshLT a b = true) : freshLT b a = false := by
  rw [Bool.eq_false_iff]
  intro h2
  simp only [freshLT, Bool.or_eq_true, Bool.and_eq_true, decide_eq_true_eq, beq_iff_eq] at h h2
  omega

theorem freshLT_negtrans (a b c : Row) (h : freshLT c b = false) (h2 : freshLT b a = false) :
    freshLT c a = false := by
  rw [Bool.eq_false_iff]
  intro h3
  rw [Bool.eq_false_iff] at h h2
  simp only [ne_eq, freshLT, Bool.or_eq_true, Bool.and_eq_true, decide_eq_true_eq,
    beq_iff_eq] at h h2 h3
  omega

theorem luLT_asymm (a b : Row) (h : luLT a b = true) : luLT b a = false := by
  rw [Bool.eq_false_iff]
  intro h2
  simp only [luLT, decide_eq_true_eq] at h h2
  omega

theorem luLT_negtrans (a b c : Row) (h : luLT c b = false) (h2 : luLT b a = false) :
    luLT c a = false := by
  rw [Bool.eq_false_iff]
  intro h3
  rw [Bool.eq_false_iff] at h h2
  simp only [ne_eq, luLT, decide_eq_true_eq] at h h2 h3
  omega

theorem partLT_iff (a b : Row) : partLT a b = true ↔
    (¬ a.prompt = b.prompt ∧ strLT a.prompt b.prompt = true) ∨
    (a.prompt = b.prompt ∧ (b.last_used_at < a.last_used_at ∨
      (a.last_used_at = b.last_used_at ∧ (b.created_at < a.created_at ∨
        (a.created_at = b.created_at ∧ strLT b.id a.id = true))))) := by
  by_cases hp : a.prompt = b.prompt <;>
    by_cases hl : a.last_used_at = b.last_used_at <;>
      by_cases hc : a.created_at = b.created_at <;>
        simp [partLT, hp, hl, hc] <;> omega

theorem id_layer_negtrans {luA caA luB caB luC caC : Nat} {idA idB idC : String}
    (h : luC ≤ luB ∧ (luC = luB → caC ≤ caB ∧ (caC = caB → strLT idB idC ≠ true)))
    (h2 : luB ≤ luA ∧ (luB = luA → caB ≤ caA ∧ (caB = caA → strLT idA idB ≠ true)))
    (h3 : luA < luC ∨ (luC = luA ∧ (caA < caC ∨ (caC = caA ∧ strLT idA idC = true)))) :
    False := by
  rcases h3 with h3 | ⟨hlu, h3⟩
  · omega
  · have hlub : luC = luB := by omega
    have hlua : luB = luA := by omega
    have hc := h.2 hlub
    have hc2 := h2.2 hlua
    rcases h3 with h3 | ⟨hca, h3⟩
    · omega
    · have hcab : caC = caB := by omega
      have hcaa : caB = caA := by omega
      have hs : strLT idB idC = false := by simpa using hc.2 hcab
      have hs2 : strLT idA idB = false := by simpa using hc2.2 hcaa
      have hf := strLT_negtrans hs2 hs
      rw [h3] at hf
      simp at hf

theorem partLT_asymm (a b : Row) (h : partLT a b = true) : partLT b a = false := by
  rw [Bool.eq_false_iff]
  intro h2
  rw [partLT_iff] at h h2
  rcases h with ⟨hne, hs⟩ | ⟨heq, hq⟩
  · rcases h2 with ⟨_, hs2⟩ | ⟨heq2, _⟩
    · rw [strLT_asymm hs] at hs2
      simp at hs2
    · exact hne heq2.symm
  · rcases h2 with ⟨hne2, _⟩ | ⟨_, hq2⟩
    · exact hne2 heq.symm
    · rcases hq with hA | ⟨hA, hq⟩
      · rcases hq2 with hB | ⟨hB, _⟩ <;> omega
      · rcases hq2 with hB | ⟨hB, hq2⟩
        · omega
        · rcases hq with hC | ⟨hC, hs⟩
          · rcases hq2 with hD | ⟨hD, _⟩ <;> omega
          · rcases hq2 with hD | ⟨hD, hs2⟩
            · omega
            · rw [strLT_asymm hs] at hs2
              simp at hs2

theorem partLT_negtrans (a b c : Row) (h : partLT c b = false) (h2 : partLT b a = false) :
    partLT c a = false := by
  rw [Bool.eq_false_iff]
  intro h3
  rw [Bool.eq_false_iff] at h h2
  rw [partLT_iff] at h3
  simp only [ne_eq, partLT_iff] at h h2
  push_neg at h h2
  rcases h3 with ⟨hne, hs⟩ | ⟨heq, hq⟩
  · by_cases hcb : c.prompt = b.prompt
    · by_cases hba : b.prompt = a.prompt
      · exact hne (hcb.trans hba)
      · have hnoba : strLT b.prompt a.prompt = false := by simpa using h2.1 hba
        rw [← hcb] at hnoba
        rw [hnoba] at hs
        simp at hs
    · have hnocb : strLT c.prompt b.prompt = false := by simpa using h.1 hcb
      by_cases hba : b.prompt = a.prompt
      · rw [← hba] at hs
        rw [hnocb] at hs
        simp at hs
      · have hnoba : strLT b.prompt a.prompt = false := by simpa using h2.1 hba
        have hf := strLT_negtrans hnocb hnoba
        rw [hf] at hs
        simp at hs
  · by_cases hcb : c.prompt = b.prompt
    · have hba : b.prompt = a.prompt := hcb ▸ heq
      exact id_layer_negtrans (h.2 hcb) (h2.2 hba) hq
    · have hnocb : strLT c.prompt b.prompt = false := by simpa using h.1 hcb
      have hba : ¬ b.prompt = a.prompt := fun hh => hcb (heq.trans hh.symm)
      have hnoba : strLT b.prompt a.prompt = false := by simpa using h2.1 hba
      rw [← heq] at hnoba
      exact hcb (strLT_conn hnocb hnoba)

theorem find?_filter_of_imp {α : Type} (p g : α → Bool)
    (hpg : ∀ x, p x = true → g x = true) :
    ∀ l : List α, (l.filter g).find? p = l.find? p
  | [] => rfl
  | x :: xs => by
    by_cases hp : p x = true
    · rw [List.filter_cons, if_pos (hpg x hp), List.find?_cons_of_pos _ hp,
        List.find?_cons_of_pos _ hp]
    · rw [List.filter_cons]
      by_cases hg : g x = true
      · rw [if_pos hg, List.find?_cons_of_neg _ hp, List.find?_cons_of_neg _ hp]
        exact find?_filter_of_imp p g hpg xs
      · rw [if_neg hg, List.find?_cons_of_neg _ hp]
        exact find?_filter_of_imp p g hpg xs

theorem consume_of_find_some {reg : Registry} {pid : String} (h : ¬ pid = "")
    {kv : String × List String}
    (hf : reg.find? (fun kv2 => kv2.1 == pid) = some kv) :
    consume_prompt_entries reg (some pid)
      = (kv.2, reg.filter (fun kv2 => !(kv2.1 == pid))) := by
  rw [consume_prompt_entries, if_neg (by simp [h]), hf]

theorem consume_of_find_none {reg : Registry} {pid : String} (h : ¬ pid = "")
    (hf : reg.find? (fun kv2 => kv2.1 == pid) = none) :
    consume_prompt_entries reg (some pid) = ([], reg) := by
  rw [consume_prompt_entries, if_neg (by simp [h]), hf]

/-- C9: consume removes and returns the bucket accumulated for a job id since
the last consume (register appends to it); a second consume without
re-registering yields the empty bucket, consume of a missing, empty or
never-registered job id yields the empty bucket without error, register with
a missing or empty job id is a no-op, and consuming one job id leaves the
buckets of other job ids untouched. -/
theorem registry_consume_exactly_once (reg : Registry) (pid q : String) (eid : String)
    (h : ¬ pid = "") :
    (consume_prompt_entries (register_prompt_entry reg (some pid) eid) (some pid)).1
        = (consume_prompt_entries reg (some pid)).1 ++ [eid] ∧
      (consume_prompt_entries (consume_prompt_entries reg (some pid)).2 (some pid)).1 = [] ∧
      consume_prompt_entries reg none = ([], reg) ∧
      consume_prompt_entries reg (some "") = ([], reg) ∧
      (reg.all (fun kv => !(kv.1 == pid)) = true →
        consume_prompt_entries reg (some pid) = ([], reg)) ∧
      register_prompt_entry reg none eid = reg ∧
      register_prompt_entry reg (some "") eid = reg ∧
      (¬ q = pid →
        (consume_prompt_entries (consume_prompt_entries reg (some pid)).2 (some q)).1
          = (consume_prompt_entries reg (some q)).1) := by
  refine ⟨?_, ?_, rfl, by simp [consume_prompt_entries], ?_,
    rfl, by simp [register_prompt_entry], ?_⟩
  · rw [register_prompt_entry]
    by_cases hany : reg.any (fun kv => kv.1 == pid) = true
    · rw [if_neg (by simp [h]), if_pos hany]
      obtain ⟨kv0, hkv0mem, hkv0⟩ := List.any_eq_true.mp hany
      have hsome : (reg.find? (fun kv => kv.1 == pid)).isSome = true :=
        List.find?_isSome.mpr ⟨kv0, hkv0mem, hkv0⟩
      obtain ⟨kv1, hkv1⟩ := Option.isSome_iff_exists.mp hsome
      have hp1 := List.find?_some hkv1
      have hcongr :
          ((fun kv : String × List String => kv.1 == pid) ∘
            (fun kv : String × List String =>
              if kv.1 == pid then (kv.1, kv.2 ++ [eid]) else kv)) =
          (fun kv : String × List String => kv.1 == pid) := by
        funext kv
        by_cases hkv : kv.1 = pid <;> simp [hkv]
      have hfind2 :
          (reg.map (fun kv : String × List String =>
              if kv.1 == pid then (kv.1, kv.2 ++ [eid]) else kv)).find?
            (fun kv2 => kv2.1 == pid) = some (kv1.1, kv1.2 ++ [eid]) := by
        rw [List.find?_map, hcongr, hkv1]
        have hp1e : kv1.1 = pid := by simpa using hp1
        simp [hp1e]
      rw [consume_of_find_some h hfind2, consume_of_find_some h hkv1]
    · rw [if_neg (by simp [h]), if_neg hany]
      have hnone : reg.find? (fun kv2 => kv2.1 == pid) = none := by
        rw [List.find?_eq_none]
        intro x hx hpx
        exact hany (List.any_eq_true.mpr ⟨x, hx, hpx⟩)
      have hfind2 : (reg ++ [(pid, [eid])]).find? (fun kv2 => kv2.1 == pid)
          = some (pid, [eid]) := by
        rw [List.find?_append, hnone]
        simp
      rw [consume_of_find_some h hfind2, consume_of_find_none h hnone]
      simp
  · cases hf : reg.find? (fun kv2 => kv2.1 == pid) with
    | none =>
      rw [consume_of_find_none h hf, consume_of_find_none h hf]
    | some kv =>
      rw [consume_of_find_some h hf]
      have hnone : (reg.filter (fun kv2 => !(kv2.1 == pid))).find?
          (fun kv2 => kv2.1 == pid) = none := by
        rw [List.find?_eq_none]
        intro x hx hpx
        have hmem := (List.mem_filter.mp hx).2
        rw [hpx] at hmem
        simp at hmem
      rw [consume_of_find_none h hnone]
  · intro hall
    rw [List.all_eq_true] at hall
    have hnone : reg.find? (fun kv2 => kv2.1 == pid) = none := by
      rw [List.find?_eq_none]
      intro x hx hpx
      have := hall x hx
      rw [hpx] at this
      simp at this
    exact consume_of_find_none h hnone
  · intro hq
    by_cases hq0 : q = ""
    · subst hq0
      cases hf : reg.find? (fun kv2 => kv2.1 == pid) with
      | none =>
        rw [consume_of_find_none h hf]
      | some kv =>
        rw [consume_of_find_some h hf]
        rw [consume_prompt_entries, if_pos (by simp), consume_prompt_entries, if_pos (by simp)]
    · cases hf : reg.find? (fun kv2 => kv2.1 == pid) with
      | none =>
        rw [consume_of_find_none h hf]
      | some kv =>
        rw [consume_of_find_some h hf]
        have hfilter := find?_filter_of_imp (fun kv2 : String × List String => kv2.1 == q)
          (fun kv2 => !(kv2.1 == pid))
          (fun x hx => by
            rw [beq_iff_eq] at hx
            simp [hx, hq]) reg
        cases hg : reg.find? (fun kv2 => kv2.1 == q) with
        | none =>
          rw [consume_of_find_none hq0 (hfilter.trans hg), consume_of_find_none hq0 hg]
        | some kvq =>
          rw [consume_of_find_some hq0 (hfilter.trans hg), consume_of_find_some hq0 hg]

theorem registry_consume_exactly_once_witness :
    (consume_prompt_entries (register_prompt_entry [("j", ["e1"])] (some "j") "e2")
        (some "j")).1 = ["e1", "e2"] := by
  have h := registry_consume_exactly_once [("j", ["e1"])] "j" "k" "e2" (by decide)
  rw [h.1]
  decide

theorem pass_loop_wids_mem {α σ : Type} (handler : String → α → σ → σ) :
    ∀ (window : List (String × α)) (processed wids : List String) (st : σ) (x : String),
      x ∈ (pass_loop handler processed wids window st).1 ↔
        x ∈ wids ∨ x ∈ window.map Prod.fst
  | [], processed, wids, st, x => by simp [pass_loop]
  | (pid, payload) :: rest, processed, wids, st, x => by
    rw [pass_loop]
    by_cases hmem : processed.contains pid = true
    · rw [if_pos hmem, pass_loop_wids_mem handler rest]
      by_cases hw : wids.contains pid = true
      · rw [if_pos hw]
        have hpid : pid ∈ wids := List.elem_iff.mp hw
        simp only [List.map_cons, List.mem_cons]
        constructor
        · rintro (hx | hx)
          · exact Or.inl hx
          · exact Or.inr (Or.inr hx)
        · rintro (hx | hx | hx)
          · exact Or.inl hx
          · exact Or.inl (hx ▸ hpid)
          · exact Or.inr hx
      · rw [if_neg hw]
        simp only [List.mem_append, List.mem_singleton, List.map_cons, List.mem_cons]
        tauto
    · rw [if_neg hmem, pass_loop_wids_mem handler rest]
      by_cases hw : wids.contains pid = true
      · rw [if_pos hw]
        have hpid : pid ∈ wids := List.elem_iff.mp hw
        simp only [List.map_cons, List.mem_cons]
        constructor
        · rintro (hx | hx)
          · exact Or.inl hx
          · exact Or.inr (Or.inr hx)
        · rintro (hx | hx | hx)
          · exact Or.inl hx
          · exact Or.inl (hx ▸ hpid)
          · exact Or.inr hx
      · rw [if_neg hw]
        simp only [List.mem_append, List.mem_singleton, List.map_cons, List.mem_cons]
        tauto

theorem pass_loop_processed_mem {α σ : Type} (handler : String → α → σ → σ) :
    ∀ (window : List (String × α)) (processed wids : List String) (st : σ) (x : String),
      x ∈ (pass_loop handler processed wids window st).2.1 ↔
        x ∈ processed ∨ x ∈ window.map Prod.fst
  | [], processed, wids, st, x => by simp [pass_loop]
  | (pid, payload) :: rest, processed, wids, st, x => by
    rw [pass_loop]
    by_cases hmem : processed.contains pid = true
    · rw [if_pos hmem, pass_loop_processed_mem handler rest]
      have hpid : pid ∈ processed := List.elem_iff.mp hmem
      simp only [List.map_cons, List.mem_cons]
      constructor
      · rintro (hx | hx)
        · exact Or.inl hx
        · exact Or.inr (Or.inr hx)
      · rintro (hx | hx | hx)
        · exact Or.inl hx
        · exact Or.inl (hx ▸ hpid)
        · exact Or.inr hx
    · rw [if_neg hmem, pass_loop_processed_mem handler rest]
      simp only [List.mem_append, List.mem_singleton, List.map_cons, List.mem_cons]
      tauto

/-- C3 (amended): after a completed Watcher pass over a fetched window, the
processed-id set is exactly the window id set: the union of its previous
value with the ids newly processed in this pass, intersected with the window
ids — not the intersection of its previous value alone with the window. -/
theorem run_pass_processed_set {α σ : Type} (handler : String → α → σ → σ)
    (processed : List String) (window : List (String × α)) (st : σ) (x : String) :
    x ∈ (run_pass handler processed window st).1 ↔ x ∈ window.map Prod.fst := by
  rw [run_pass]
  simp only [List.mem_filter]
  rw [pass_loop_processed_mem handler window processed [] st x]
  constructor
  · rintro ⟨hmem, hcont⟩
    have := List.elem_iff.mp hcont
    rw [pass_loop_wids_mem handler window processed [] st x] at this
    simpa using this
  · intro hx
    refine ⟨Or.inr hx, List.elem_iff.mpr ?_⟩
    rw [pass_loop_wids_mem handler window processed [] st x]
    exact Or.inr hx

/-- C3, the claim as frozen, refuted: with an empty processed set and a
window holding the single fresh job id a, the processed set after the pass
holds a, while the intersection of the previous processed set with the
window id set is empty. -/
theorem run_pass_not_intersection_of_previous :
    (run_pass (fun _ _ st => st) [] [("a", (0 : Nat))] (0 : Nat)).1 = ["a"] ∧
      ¬ ("a" ∈ ([] : List String)) := by
  constructor
  · decide
  · simp

/-- C5 (amended): an extracted output survives the saved-over-preview
heuristic iff it was collected and, when any collected output is tagged
output, it is itself tagged output — every record with a different tag
(temp, input, or the empty default) is discarded in that case. -/
theorem extract_generated_files_mem (hr : HistResult) (rec : OutputRecord) :
    rec ∈ extract_generated_files hr ↔
      rec ∈ collect_generated hr ∧
        ((collect_generated hr).any (fun item => item.type == "output") = false ∨
          rec.type = "output") := by
  rw [extract_generated_files]
  by_cases hs : (collect_generated hr).any (fun item => item.type == "output") = true
  · rw [if_pos hs]
    simp [List.mem_filter, hs]
  · rw [if_neg hs]
    have hfalse : (collect_generated hr).any (fun item => item.type == "output") = false := by
      simpa using hs
    simp [hfalse]

/-- C5, the claim as frozen, refuted: with one saved image x.png and one
image z.png of the empty default tag in the completion payload, the
extraction keeps only x.png; z.png is not tagged temp yet it is discarded,
against the claim that exactly the temp-tagged outputs are dropped. -/
theorem extract_generated_files_counterexample :
    extract_generated_files c5Hist
        = [{ filename := "x.png", subfolder := "", type := "output" }] ∧
      ({ filename := "z.png", subfolder := "", type := "" } : OutputRecord)
          ∈ collect_generated c5Hist ∧
      ¬ (({ filename := "z.png", subfolder := "", type := "" } : OutputRecord)
          ∈ extract_generated_files c5Hist) ∧
      ¬ ("" = "temp") := by
  refine ⟨by decide, by decide, by decide, by decide⟩

theorem ensure_entry_of_find_some {s : Store} {now : Nat} {P : String} {md : Metadata}
    {r : Row} (hf : find_entry_locked s P md = some r) :
    ensure_entry s now P (some md) = ⟨r, false, s⟩ := by
  simp only [ensure_entry, normalize_metadata, hf]

theorem ensure_entry_of_find_none {s : Store} {now : Nat} {P : String} {md : Metadata}
    (hf : find_entry_locked s P md = none) :
    ensure_entry s now P (some md) =
      ⟨(create_entry_locked s now P md).1, true, (create_entry_locked s now P md).2⟩ := by
  simp only [ensure_entry, normalize_metadata, hf]

theorem find_none_fast_filter_nil {s : Store} {P : String} {md : Metadata}
    (hf : find_entry_locked s P md = none) :
    s.entries.filter (fun r => r.prompt == P && r.metaStr == serialize_metadata md) = [] := by
  cases hh : (isortBy luLT (s.entries.filter
      (fun r => r.prompt == P && r.metaStr == serialize_metadata md))).head? with
  | some r =>
    simp only [find_entry_locked, hh] at hf
    exact absurd hf (by simp)
  | none =>
    rw [List.head?_eq_none_iff] at hh
    exact isortBy_eq_nil_iff.mp hh

theorem find_after_create {s : Store} {P : String} {md : Metadata} (now : Nat)
    (hfast : s.entries.filter
        (fun r => r.prompt == P && r.metaStr == serialize_metadata md) = []) :
    find_entry_locked (create_entry_locked s now P md).2 P md
      = some (mkRow s now P md) := by
  have hrow : (fun r : Row => r.prompt == P && r.metaStr == serialize_metadata md)
      (mkRow s now P md) = true := by
    simp [mkRow]
  have hentries : (create_entry_locked s now P md).2.entries
      = s.entries ++ [mkRow s now P md] := rfl
  rw [find_entry_locked, hentries, List.filter_append, hfast]
  rw [List.filter_cons, if_pos hrow]
  rfl

/-- C4: two successive ensure_entry calls for the same prompt and metadata
with no interleaved operation return the same entry id, and when no matching
entry pre-exists the first call reports created and the second does not. -/
theorem ensure_entry_twice (s : Store) (now1 now2 : Nat) (P : String) (md : Metadata) :
    (ensure_entry s now1 P (some md)).entry.id
        = (ensure_entry (ensure_entry s now1 P (some md)).store now2 P (some md)).entry.id ∧
      (find_entry_locked s P md = none →
        (ensure_entry s now1 P (some md)).created = true ∧
          (ensure_entry (ensure_entry s now1 P (some md)).store now2 P (some md)).created
            = false) := by
  cases hf : find_entry_locked s P md with
  | some r =>
    rw [ensure_entry_of_find_some hf]
    rw [ensure_entry_of_find_some hf]
    exact ⟨rfl, fun hnone => absurd hnone (by simp)⟩
  | none =>
    have hfilter := find_none_fast_filter_nil hf
    rw [ensure_entry_of_find_none hf]
    rw [ensure_entry_of_find_some (find_after_create now1 hfilter)]
    exact ⟨rfl, fun _ => ⟨rfl, rfl⟩⟩

theorem ensure_entry_twice_witness :
    (ensure_entry emptyStore 0 "p" (some mdAB)).created = true ∧
      (ensure_entry (ensure_entry emptyStore 0 "p" (some mdAB)).store 1 "p"
          (some mdAB)).created = false :=
  (ensure_entry_twice emptyStore 0 1 "p" mdAB).2 (by decide)

/-- C2 (amended): a record-prompt event is deduplicated — no new entry is
created and the store is unchanged — whenever the matching entry is still
findable: either some stored entry carries the same prompt with
byte-identical serialized metadata (the indexed fast path, at any recency
rank), or an entry with deeply equal metadata is among the
FALLBACK_LOOKUP_LIMIT most recently used entries of that prompt (the
fallback scan). The unbounded claim fails when only a deeply-equal,
differently-ordered entry exists and it has been pushed out of that
window. -/
theorem ensure_entry_dedup_within_window (s : Store) (now : Nat) (P : String) (md : Metadata)
    (h : (∃ r ∈ s.entries, r.prompt = P ∧ r.metaStr = serialize_metadata md) ∨
      (∃ r ∈ ((isortBy freshLT (s.entries.filter (fun r => r.prompt == P))).take
        FALLBACK_LOOKUP_LIMIT), pyEqM r.metaVal md = true)) :
    (ensure_entry s now P (some md)).created = false ∧
      (ensure_entry s now P (some md)).store = s := by
  cases hf : find_entry_locked s P md with
  | some r =>
    rw [ensure_entry_of_find_some hf]
    exact ⟨rfl, rfl⟩
  | none =>
    exfalso
    rcases h with ⟨r, hrmem, hp, hser⟩ | ⟨r, hrmem, hreq⟩
    · have hfilter := find_none_fast_filter_nil hf
      have hrin : r ∈ s.entries.filter
          (fun r2 => r2.prompt == P && r2.metaStr == serialize_metadata md) :=
        List.mem_filter.mpr ⟨hrmem, by simp [hp, hser]⟩
      rw [hfilter] at hrin
      simp at hrin
    · cases hh : (isortBy luLT (s.entries.filter
          (fun r => r.prompt == P && r.metaStr == serialize_metadata md))).head? with
      | some r2 =>
        simp only [find_entry_locked, hh] at hf
        exact absurd hf (by simp)
      | none =>
        simp only [find_entry_locked, hh] at hf
        rw [List.find?_eq_none] at hf
        exact hf r hrmem hreq

theorem ensure_entry_dedup_within_window_witness :
    (ensure_entry (ensure_entry emptyStore 0 "p" (some mdAB)).store 1 "p"
        (some mdBA)).created = false :=
  (ensure_entry_dedup_within_window (ensure_entry emptyStore 0 "p" (some mdAB)).store 1 "p"
      mdBA (by decide)).1

set_option maxRecDepth 80000 in
/-- C2, the claim as frozen, refuted: after a record-prompt event with
metadata keys in order a, b followed by FALLBACK_LOOKUP_LIMIT events for the
same prompt with other metadata, a record-prompt event with the same metadata
map supplied in order b, a finds exactly one stored deeply-equal entry for
the byte-identical prompt, yet creates a fresh entry with an id not present
in the store instead of reusing it. -/
theorem ensure_entry_duplicate_counterexample :
    (ensure_entry c2Store 26 "p" (some mdBA)).created = true ∧
      (c2Store.entries.filter (fun r => r.prompt == "p" && pyEqM r.metaVal mdBA)).length = 1 ∧
      ((c2Store.entries.map (fun r => r.id)).contains
          (ensure_entry c2Store 26 "p" (some mdBA)).entry.id) = false := by
  refine ⟨by decide, by decide, by decide⟩

theorem dictGet_dictSet (k k2 : String) (v : MVal) :
    ∀ m : Metadata, dictGet k (dictSet k2 v m) = if k2 == k then some v else dictGet k m
  | [] => by
    by_cases h : k2 = k <;> simp [dictGet, dictSet, h]
  | (k3, w) :: rest => by
    by_cases h32 : k3 = k2
    · subst h32
      rw [dictSet, if_pos (by simp)]
      by_cases h3k : k3 = k
      · subst h3k
        simp [dictGet]
      · simp [dictGet, h3k]
    · rw [dictSet, if_neg (by simp [h32])]
      by_cases h3k : k3 = k
      · subst h3k
        have hk2 : ¬ k2 = k3 := fun he => h32 he.symm
        simp [dictGet, hk2]
      · simp [dictGet, h3k, dictGet_dictSet k k2 v rest]

theorem merge_metadata_keeps_keys :
    ∀ (upd cur : Metadata) (k : String), (dictGet k cur).isSome = true →
      (dictGet k (merge_metadata cur upd).1).isSome = true
  | [], _, _, h => h
  | kv :: rest, cur, k, h => by
    rw [merge_metadata]
    by_cases hc : pyEqV ((dictGet kv.1 cur).getD .mnull) kv.2 = true
    · rw [if_pos hc]
      exact merge_metadata_keeps_keys rest cur k h
    · rw [if_neg hc]
      apply merge_metadata_keeps_keys rest
      rw [dictGet_dictSet]
      by_cases hk : kv.1 = k
      · simp [hk]
      · simp only [beq_iff_eq, if_neg hk]
        exact h

theorem merge_metadata_noop :
    ∀ (upd cur : Metadata),
      (∀ kv ∈ upd, ∃ w, dictGet kv.1 cur = some w ∧ pyEqV w kv.2 = true) →
      merge_metadata cur upd = (cur, false)
  | [], _, _ => rfl
  | kv :: rest, cur, h => by
    obtain ⟨w, hw, hpe⟩ := h kv (by simp)
    rw [merge_metadata, if_pos (by rw [hw]; simpa using hpe)]
    exact merge_metadata_noop rest cur (fun kv2 hkv2 => h kv2 (by simp [hkv2]))

/-- C7: for an existing entry, update_metadata never drops a previously
present metadata key, changes no field but the metadata column (the
last-used timestamp, id, prompt and creation timestamp are untouched), never
touches the output table or the rows of other ids, and performs no write at
all when every supplied key already carries a Python-equal stored value. -/
theorem update_metadata_spec (s : Store) (eid : String) (upd : Metadata) (r : Row)
    (h : s.entries.find? (fun r2 => r2.id == eid) = some r) :
    ∃ r2, (update_metadata s eid upd).entries.find? (fun x => x.id == eid) = some r2 ∧
      r2.id = r.id ∧ r2.prompt = r.prompt ∧ r2.created_at = r.created_at ∧
      r2.last_used_at = r.last_used_at ∧
      (∀ k, (dictGet k r.metaVal).isSome = true → (dictGet k r2.metaVal).isSome = true) ∧
      (update_metadata s eid upd).outputs = s.outputs ∧
      (∀ x ∈ s.entries, (x.id == eid) = false → x ∈ (update_metadata s eid upd).entries) ∧
      ((∀ kv ∈ upd, ∃ w, dictGet kv.1 r.metaVal = some w ∧ pyEqV w kv.2 = true) →
        update_metadata s eid upd = s) := by
  by_cases hguard : (eid == "" || upd.isEmpty) = true
  · rw [update_metadata, if_pos hguard]
    exact ⟨r, h, rfl, rfl, rfl, rfl, fun _ hk => hk, rfl, fun x hx _ => hx, fun _ => rfl⟩
  · have hupdate : update_metadata s eid upd =
        if (merge_metadata r.metaVal upd).2 = true then
          { s with
            entries := s.entries.map
              (fun x =>
                if x.id == eid then
                  { x with
                    metaStr := serialize_metadata (merge_metadata r.metaVal upd).1,
                    metaVal := (merge_metadata r.metaVal upd).1 }
                else x) }
        else s := by
      rw [update_metadata, if_neg hguard, h]
    by_cases hch : (merge_metadata r.metaVal upd).2 = true
    · rw [if_pos hch] at hupdate
      have hrid := List.find?_some h
      have hstep : ∀ x : Row,
          ((fun x : Row => x.id == eid) ∘
            (fun x : Row =>
              if x.id == eid then
                { x with
                  metaStr := serialize_metadata (merge_metadata r.metaVal upd).1,
                  metaVal := (merge_metadata r.metaVal upd).1 }
              else x)) x = (x.id == eid) := by
        intro x
        by_cases hx : x.id = eid <;> simp [hx]
      refine ⟨{ r with
          metaStr := serialize_metadata (merge_metadata r.metaVal upd).1,
          metaVal := (merge_metadata r.metaVal upd).1 }, ?_, rfl, rfl, rfl, rfl,
        ?_, by rw [hupdate], ?_, ?_⟩
      · rw [hupdate]
        show (s.entries.map _).find? _ = _
        rw [List.find?_map, funext hstep, h]
        have hride : r.id = eid := by simpa using hrid
        simp [hride]
      · intro k hk
        exact merge_metadata_keeps_keys upd r.metaVal k hk
      · intro x hx hxid
        rw [hupdate]
        refine List.mem_map.mpr ⟨x, hx, ?_⟩
        rw [if_neg (by simp [hxid])]
      · intro hall
        have := merge_metadata_noop upd r.metaVal hall
        rw [this] at hch
        simp at hch
    · rw [if_neg hch] at hupdate
      rw [hupdate]
      exact ⟨r, h, rfl, rfl, rfl, rfl, fun _ hk => hk, rfl, fun x hx _ => hx, fun _ => rfl⟩

theorem update_metadata_spec_witness :
    (update_metadata (ensure_entry emptyStore 0 "p" (some mdAB)).store "uuid-0"
        [("c", .mnum 3)]).outputs = [] := by
  have h := update_metadata_spec (ensure_entry emptyStore 0 "p" (some mdAB)).store "uuid-0"
    [("c", .mnum 3)] (mkRow emptyStore 0 "p" mdAB) (by decide)
  obtain ⟨r2, _, _, _, _, _, _, houts, _, _⟩ := h
  rw [houts]
  decide

/-- C8: inserting the same (entry id, filename, subfolder, type) tuple twice
through add_outputs_for_entries — within one call or across calls — leaves
exactly one stored output record for that tuple: the duplicate insert is
ignored by the UNIQUE constraint and the second call returns the store
unchanged. -/
theorem add_outputs_for_entries_idempotent (s : Store) (eid : String) (f : FileInfo)
    (rec : OutputRecord)
    (hn : normalize_output_payload f = some rec)
    (heid : ¬ eid = "")
    (hfk : s.entries.any (fun r => r.id == eid) = true)
    (h0 : output_tuple_count s eid rec.filename rec.subfolder rec.type = 0) :
    ∃ s1, add_outputs_for_entries s [eid] [f, f] = Except.ok s1 ∧
      output_tuple_count s1 eid rec.filename rec.subfolder rec.type = 1 ∧
      add_outputs_for_entries s1 [eid] [f] = Except.ok s1 := by
  have hfilterEmpty : s.outputs.filter
      (fun o => o.entry_id == eid && o.filename == rec.filename &&
        o.subfolder == rec.subfolder && o.type == rec.type) = [] := by
    rw [output_tuple_count] at h0
    exact List.length_eq_zero.mp h0
  have hany0 : s.outputs.any
      (fun o => o.entry_id == eid && o.filename == rec.filename &&
        o.subfolder == rec.subfolder && o.type == rec.type) = false := by
    rw [Bool.eq_false_iff]
    intro hany
    obtain ⟨o, ho, hqo⟩ := List.any_eq_true.mp hany
    have hmem : o ∈ s.outputs.filter
        (fun o => o.entry_id == eid && o.filename == rec.filename &&
          o.subfolder == rec.subfolder && o.type == rec.type) :=
      List.mem_filter.mpr ⟨ho, hqo⟩
    rw [hfilterEmpty] at hmem
    simp at hmem
  have hnorm2 : List.filterMap normalize_output_payload [f, f] = [rec, rec] := by
    simp [hn]
  have hnorm1 : List.filterMap normalize_output_payload [f] = [rec] := by
    simp [hn]
  have htargets : List.filter (fun i => !(i == "")) [eid] = [eid] := by
    simp [heid]
  have hins1 : insert_or_ignore_output s eid rec.filename rec.subfolder rec.type
      = pure
        { s with
          outputs := s.outputs ++
            [{ rowid := s.next_output_rowid, entry_id := eid, filename := rec.filename,
               subfolder := rec.subfolder, type := rec.type }],
          next_output_rowid := s.next_output_rowid + 1 } := by
    rw [insert_or_ignore_output, if_neg (by rw [hany0]; simp), if_pos hfk]
    rfl
  have hmatch : (fun o : OutRow => o.entry_id == eid && o.filename == rec.filename &&
      o.subfolder == rec.subfolder && o.type == rec.type)
      { rowid := s.next_output_rowid, entry_id := eid, filename := rec.filename,
        subfolder := rec.subfolder, type := rec.type } = true := by
    simp
  have hins2 : insert_or_ignore_output
      { s with
        outputs := s.outputs ++
          [{ rowid := s.next_output_rowid, entry_id := eid, filename := rec.filename,
             subfolder := rec.subfolder, type := rec.type }],
        next_output_rowid := s.next_output_rowid + 1 } eid rec.filename rec.subfolder rec.type
      = pure
        { s with
          outputs := s.outputs ++
            [{ rowid := s.next_output_rowid, entry_id := eid, filename := rec.filename,
               subfolder := rec.subfolder, type := rec.type }],
          next_output_rowid := s.next_output_rowid + 1 } := by
    have hcond : ((s.outputs ++
        ([{ rowid := s.next_output_rowid, entry_id := eid, filename := rec.filename,
            subfolder := rec.subfolder, type := rec.type }] : List OutRow)).any
        (fun o => o.entry_id == eid && o.filename == rec.filename &&
          o.subfolder == rec.subfolder && o.type == rec.type)) = true := by
      rw [List.any_append, hany0]
      simp
    rw [insert_or_ignore_output, if_pos hcond]
    rfl
  refine ⟨{ s with
      outputs := s.outputs ++
        [{ rowid := s.next_output_rowid, entry_id := eid, filename := rec.filename,
           subfolder := rec.subfolder, type := rec.type }],
      next_output_rowid := s.next_output_rowid + 1 }, ?_, ?_, ?_⟩
  · show add_outputs_for_entries s [eid] [f, f] = Except.ok _
    simp only [add_outputs_for_entries, hnorm2, htargets, List.isEmpty_cons,
      Bool.false_eq_true, if_false, List.foldlM_cons, List.foldlM_nil, hins1, pure_bind,
      hins2, bind_pure]
    rfl
  · rw [output_tuple_count]
    show (List.filter _ (s.outputs ++ _)).length = 1
    rw [List.filter_append, hfilterEmpty, List.filter_cons, if_pos hmatch]
    simp
  · show add_outputs_for_entries _ [eid] [f] = Except.ok _
    simp only [add_outputs_for_entries, hnorm1, htargets, List.isEmpty_cons,
      Bool.false_eq_true, if_false, List.foldlM_cons, List.foldlM_nil, hins2, pure_bind,
      bind_pure]
    rfl

theorem add_outputs_for_entries_idempotent_witness :
    Except.map (fun s1 => output_tuple_count s1 "uuid-0" "x.png" "" "output")
        (add_outputs_for_entries c1Store ["uuid-0"]
          [FileInfo.dict (some "x.png") none (some "output") none,
           FileInfo.dict (some "x.png") none (some "output") none]) = Except.ok 1 := by
  obtain ⟨s1, h1, h2, h3⟩ := add_outputs_for_entries_idempotent c1Store "uuid-0"
    (FileInfo.dict (some "x.png") none (some "output") none)
    { filename := "x.png", subfolder := "", type := "output" }
    (by decide) (by decide) (by decide) (by decide)
  rw [h1]
  show Except.ok (output_tuple_count s1 "uuid-0" "x.png" "" "output") = Except.ok 1
  rw [h2]

/-- C1 (amended): delete(E.id) deletes every entry whose prompt text equals
the prompt of E (cascading the outputs of each deleted entry), leaves every
entry with a different prompt untouched, and returns true; a repeated call
with the same id returns false, and delete of a nonexistent id returns false
rather than raising. -/
theorem delete_spec (s : Store) (eid : String)
    (hids : (s.entries.map (fun r => r.id)).Nodup) :
    (∀ r, s.entries.find? (fun r2 => r2.id == eid) = some r →
      (delete s eid).1 = true ∧
        (∀ r2, r2 ∈ (delete s eid).2.entries ↔
          (r2 ∈ s.entries ∧ ¬ r2.prompt = r.prompt)) ∧
        (∀ o, o ∈ (delete s eid).2.outputs ↔
          (o ∈ s.outputs ∧ ∀ r2 ∈ s.entries, r2.id = o.entry_id → ¬ r2.prompt = r.prompt)) ∧
        delete (delete s eid).2 eid = (false, (delete s eid).2)) ∧
    (s.entries.find? (fun r2 => r2.id == eid) = none → delete s eid = (false, s)) := by
  constructor
  · intro r h
    have hrmem := List.mem_of_find?_eq_some h
    have hrid : r.id = eid := by simpa using List.find?_some h
    have hdel : delete s eid =
        (decide (0 < ((s.entries.filter (fun r2 => r2.prompt == r.prompt)).map
            (fun r2 => r2.id)).length),
          { s with
            entries := s.entries.filter (fun r2 => !(r2.prompt == r.prompt)),
            outputs := s.outputs.filter (fun o =>
              !(((s.entries.filter (fun r2 => r2.prompt == r.prompt)).map
                  (fun r2 => r2.id)).contains o.entry_id)) }) := by
      simp only [delete, h]
    refine ⟨?_, ?_, ?_, ?_⟩
    · rw [hdel]
      simp only [decide_eq_true_eq, List.length_map]
      rw [List.length_pos]
      exact List.ne_nil_of_mem (List.mem_filter.mpr ⟨hrmem, by simp⟩)
    · intro r2
      rw [hdel]
      simp [List.mem_filter]
    · intro o
      rw [hdel]
      simp only [List.mem_filter]
      constructor
      · rintro ⟨ho, hcont⟩
        simp only [Bool.not_eq_true', List.contains_eq_any_beq] at hcont
        refine ⟨ho, fun r2 hr2 hid hp => ?_⟩
        have hmm : ((s.entries.filter (fun r3 => r3.prompt == r.prompt)).map
            (fun r3 => r3.id)).any (fun x => o.entry_id == x) = true :=
          List.any_eq_true.mpr ⟨o.entry_id,
            List.mem_map.mpr ⟨r2, List.mem_filter.mpr ⟨hr2, by simp [hp]⟩, hid⟩, by simp⟩
        rw [hmm] at hcont
        simp at hcont
      · rintro ⟨ho, hall⟩
        refine ⟨ho, ?_⟩
        simp only [Bool.not_eq_true', List.contains_eq_any_beq]
        rw [Bool.eq_false_iff]
        intro hcont
        obtain ⟨x, hxmem, hxeq⟩ := List.any_eq_true.mp hcont
        obtain ⟨r2, hr2f, hid⟩ := List.mem_map.mp hxmem
        obtain ⟨hr2mem, hp⟩ := List.mem_filter.mp hr2f
        have hxo : o.entry_id = x := by simpa using hxeq
        exact hall r2 hr2mem (hid.trans hxo.symm) (by simpa using hp)
    · have hnone : ((delete s eid).2.entries).find? (fun r2 => r2.id == eid) = none := by
        rw [List.find?_eq_none]
        intro x hx
        rw [hdel] at hx
        obtain ⟨hxmem, hxp⟩ := List.mem_filter.mp hx
        intro hxid
        have hxid2 : x.id = r.id := by
          rw [hrid]
          simpa using hxid
        have hxr : x = r := List.inj_on_of_nodup_map hids hxmem hrmem hxid2
        subst hxr
        simp at hxp
      conv_lhs => rw [delete]
      rw [hnone]
  · intro h
    simp only [delete, h]

theorem delete_spec_witness :
    (delete c1Store "uuid-0").1 = true ∧
      delete (delete c1Store "uuid-0").2 "uuid-0" = (false, (delete c1Store "uuid-0").2) := by
  have h := (delete_spec c1Store "uuid-0" (by decide)).1 (mkRow emptyStore 0 "p" mdAB)
    (by decide)
  exact ⟨h.1, h.2.2.2⟩

set_option maxRecDepth 8000 in
/-- C1, the claim as frozen, refuted: in a store holding two entries that
share prompt text p but differ in metadata, delete of the first entry also
removes the second entry, so delete does not leave every other entry
unchanged. -/
theorem delete_counterexample :
    (c1Store.entries.any (fun r => r.id == "uuid-1")) = true ∧
      ¬ "uuid-1" = "uuid-0" ∧
      (delete c1Store "uuid-0").1 = true ∧
      ((delete c1Store "uuid-0").2.entries.any (fun r => r.id == "uuid-1")) = false := by
  refine ⟨by decide, by decide, by decide, by decide⟩

theorem strLT_irrefl_aux : ∀ as : List Char, strLTaux as as = false
  | [] => rfl
  | a :: as => by
    rw [strLTaux, if_pos rfl]
    exact strLT_irrefl_aux as

theorem strLT_irrefl (a : String) : strLT a a = false :=
  strLT_irrefl_aux a.data

theorem dedupFirst_sublist : ∀ (seen : List String) (l : List Row),
    (dedupFirst seen l).Sublist l
  | _, [] => List.Sublist.refl _
  | seen, r :: rs => by
    rw [dedupFirst]
    by_cases h : seen.contains r.prompt = true
    · rw [if_pos h]
      exact (dedupFirst_sublist seen rs).cons r
    · rw [if_neg h]
      exact (dedupFirst_sublist (r.prompt :: seen) rs).cons₂ r

theorem dedupFirst_not_seen : ∀ (seen : List String) (l : List Row) (x : Row),
    x ∈ dedupFirst seen l → seen.contains x.prompt = false
  | seen, [], x, hx => by simp [dedupFirst] at hx
  | seen, r :: rs, x, hx => by
    rw [dedupFirst] at hx
    by_cases h : seen.contains r.prompt = true
    · rw [if_pos h] at hx
      exact dedupFirst_not_seen seen rs x hx
    · rw [if_neg h] at hx
      rcases List.mem_cons.mp hx with hx2 | hx2
      · subst hx2
        simpa using h
      · have := dedupFirst_not_seen (r.prompt :: seen) rs x hx2
        rw [Bool.eq_false_iff] at this ⊢
        intro hc
        exact this (by simp [List.elem_iff.mp hc])

theorem dedupFirst_prompts_pairwise : ∀ (seen : List String) (l : List Row),
    (dedupFirst seen l).Pairwise (fun a b => ¬ a.prompt = b.prompt)
  | _, [] => List.Pairwise.nil
  | seen, r :: rs => by
    rw [dedupFirst]
    by_cases h : seen.contains r.prompt = true
    · rw [if_pos h]
      exact dedupFirst_prompts_pairwise seen rs
    · rw [if_neg h]
      rw [List.pairwise_cons]
      refine ⟨fun y hy hpy => ?_, dedupFirst_prompts_pairwise (r.prompt :: seen) rs⟩
      have := dedupFirst_not_seen (r.prompt :: seen) rs y hy
      rw [Bool.eq_false_iff] at this
      exact this (by simp [hpy.symm])

theorem dedupFirst_first_of_prompt {R : Row → Row → Prop} :
    ∀ (seen : List String) (l : List Row), l.Pairwise R →
      ∀ x ∈ dedupFirst seen l, ∀ y ∈ l, y.prompt = x.prompt → x = y ∨ R x y
  | seen, [], _, x, hx, y, hy, _ => by simp at hy
  | seen, r :: rs, hp, x, hx, y, hy, hpy => by
    rw [List.pairwise_cons] at hp
    rw [dedupFirst] at hx
    by_cases h : seen.contains r.prompt = true
    · rw [if_pos h] at hx
      rcases List.mem_cons.mp hy with hy2 | hy2
      · exfalso
        have hns := dedupFirst_not_seen seen rs x hx
        rw [hy2] at hpy
        rw [hpy] at h
        rw [hns] at h
        exact Bool.false_ne_true h
      · exact dedupFirst_first_of_prompt seen rs hp.2 x hx y hy2 hpy
    · rw [if_neg h] at hx
      rcases List.mem_cons.mp hx with hx2 | hx2
      · subst hx2
        rcases List.mem_cons.mp hy with hy2 | hy2
        · exact Or.inl hy2.symm
        · exact Or.inr (hp.1 y hy2)
      · have hns := dedupFirst_not_seen (r.prompt :: seen) rs x hx2
        rcases List.mem_cons.mp hy with hy2 | hy2
        · exfalso
          rw [Bool.eq_false_iff] at hns
          refine hns ?_
          rw [hy2] at hpy
          simp [hpy.symm]
        · exact dedupFirst_first_of_prompt (r.prompt :: seen) rs hp.2 x hx2 y hy2 hpy

theorem mem_list_query_mem_rank1 {s : Store} {limit : Option Nat} {row : Row}
    (h : row ∈ list_query s limit) : row ∈ rank1_rows s := by
  have h2 : row ∈ isortBy freshLT (rank1_rows s) := by
    cases limit with
    | none => exact h
    | some n => exact List.mem_of_mem_take h
  exact mem_isortBy.mp h2

theorem rank1_rows_mem_entries {s : Store} {row : Row} (h : row ∈ rank1_rows s) :
    row ∈ s.entries := by
  rw [rank1_rows] at h
  exact mem_isortBy.mp ((dedupFirst_sublist [] (isortBy partLT s.entries)).mem h)

theorem rank1_rows_is_max {s : Store} {row : Row} (h : row ∈ rank1_rows s) :
    ∀ r2 ∈ s.entries, r2.prompt = row.prompt →
      r2.last_used_at < row.last_used_at ∨
        (r2.last_used_at = row.last_used_at ∧
          (r2.created_at < row.created_at ∨
            (r2.created_at = row.created_at ∧ strLT row.id r2.id = false))) := by
  intro r2 hr2 hp
  rw [rank1_rows] at h
  have hpw := pairwise_isortBy partLT_asymm partLT_negtrans s.entries
  have hr2s : r2 ∈ isortBy partLT s.entries := mem_isortBy.mpr hr2
  rcases dedupFirst_first_of_prompt [] (isortBy partLT s.entries) hpw row h r2 hr2s hp with
    heq | hrel
  · subst heq
    exact Or.inr ⟨rfl, Or.inr ⟨rfl, strLT_irrefl _⟩⟩
  · rw [Bool.eq_false_iff] at hrel
    simp only [ne_eq, partLT_iff] at hrel
    push_neg at hrel
    have hq := hrel.2 hp
    by_cases hlu : r2.last_used_at = row.last_used_at
    · have hca := (hq.2 hlu)
      by_cases hc : r2.created_at = row.created_at
      · have hs : strLT row.id r2.id = false := by simpa using hca.2 hc
        exact Or.inr ⟨hlu, Or.inr ⟨hc, hs⟩⟩
      · refine Or.inr ⟨hlu, Or.inl ?_⟩
        omega
    · refine Or.inl ?_
      omega

theorem mem_fetch_outputs_for_prompt {s : Store} {p : String} {d : OutDict} :
    d ∈ fetch_outputs_for_prompt s p ↔
      ∃ o ∈ s.outputs, mkOutDict o = d ∧
        ∃ r2 ∈ s.entries, r2.id = o.entry_id ∧ r2.prompt = p := by
  rw [fetch_outputs_for_prompt]
  rw [List.mem_flatMap]
  constructor
  · rintro ⟨o, ho, hd⟩
    obtain ⟨r2, hr2f, hdo⟩ := List.mem_map.mp hd
    obtain ⟨hr2mem, hpred⟩ := List.mem_filter.mp hr2f
    rw [Bool.and_eq_true, beq_iff_eq, beq_iff_eq] at hpred
    exact ⟨o, mem_isortBy.mp ho, hdo, r2, hr2mem, hpred.1, hpred.2⟩
  · rintro ⟨o, ho, hdo, r2, hr2, hid, hp⟩
    refine ⟨o, mem_isortBy.mpr ho, List.mem_map.mpr ⟨r2, List.mem_filter.mpr ⟨hr2, ?_⟩, hdo⟩⟩
    simp [hid, hp]

/-- C10: list returns at most one entry per distinct prompt text; each
returned entry is a stored row that is maximal among the rows sharing its
prompt under (last-used desc, created desc, id desc); and the files attached
to a returned entry are the output records of every entry sharing that
prompt text, not only the representative's own. -/
theorem list_grouping_spec (s : Store) (limit : Option Nat) :
    (list s limit).Pairwise (fun a b => ¬ a.prompt = b.prompt) ∧
      (∀ le ∈ list s limit,
        (∃ r ∈ s.entries, r.id = le.id ∧ r.prompt = le.prompt ∧
          r.last_used_at = le.last_used_at ∧ r.created_at = le.created_at) ∧
        (∀ r2 ∈ s.entries, r2.prompt = le.prompt →
          r2.last_used_at < le.last_used_at ∨
            (r2.last_used_at = le.last_used_at ∧
              (r2.created_at < le.created_at ∨
                (r2.created_at = le.created_at ∧ strLT le.id r2.id = false)))) ∧
        (∀ d, d ∈ le.files ↔ ∃ o ∈ s.outputs, mkOutDict o = d ∧
          ∃ r2 ∈ s.entries, r2.id = o.entry_id ∧ r2.prompt = le.prompt)) := by
  constructor
  · rw [list]
    have hpw : (rank1_rows s).Pairwise (fun a b => ¬ a.prompt = b.prompt) :=
      dedupFirst_prompts_pairwise [] (isortBy partLT s.entries)
    have hperm : (isortBy freshLT (rank1_rows s)).Pairwise
        (fun a b => ¬ a.prompt = b.prompt) :=
      ((isortBy_perm freshLT (rank1_rows s)).pairwise_iff
        (fun hxy he => hxy he.symm)).mpr hpw
    have hq : (list_query s limit).Pairwise (fun a b => ¬ a.prompt = b.prompt) := by
      cases limit with
      | none => exact hperm
      | some n => exact List.Pairwise.sublist (List.take_sublist n _) hperm
    exact hq.map _ (fun a b hab => hab)
  · intro le hle
    obtain ⟨row, hrow, hfe⟩ := List.mem_map.mp hle
    subst hfe
    have hr1 := mem_list_query_mem_rank1 hrow
    refine ⟨⟨row, rank1_rows_mem_entries hr1, rfl, rfl, rfl, rfl⟩, ?_, ?_⟩
    · exact rank1_rows_is_max hr1
    · intro d
      exact mem_fetch_outputs_for_prompt

theorem list_grouping_spec_witness :
    (mkRow emptyStore 0 "p" mdAB).last_used_at < c10Le.last_used_at ∨
      ((mkRow emptyStore 0 "p" mdAB).last_used_at = c10Le.last_used_at ∧
        ((mkRow emptyStore 0 "p" mdAB).created_at < c10Le.created_at ∨
          ((mkRow emptyStore 0 "p" mdAB).created_at = c10Le.created_at ∧
            strLT c10Le.id (mkRow emptyStore 0 "p" mdAB).id = false))) :=
  ((list_grouping_spec c1Store none).2 c10Le (by decide)).2.1 (mkRow emptyStore 0 "p" mdAB)
    (by decide) (by decide)

/-- C6 (amended): list returns entries ordered by last-used timestamp
descending with ties broken by creation timestamp descending; the query
applies no id tiebreak, so rows tied on both timestamps appear in no further
specified order (in this model, the partition pass's prompt order). -/
theorem list_ordered (s : Store) (limit : Option Nat) :
    (list s limit).Pairwise (fun a b =>
      b.last_used_at < a.last_used_at ∨
        (b.last_used_at = a.last_used_at ∧ b.created_at ≤ a.created_at)) := by
  have himpl : ∀ a b : Row, (freshLT b a = false) →
      (b.last_used_at < a.last_used_at ∨
        (b.last_used_at = a.last_used_at ∧ b.created_at ≤ a.created_at)) := by
    intro a b hf
    rw [Bool.eq_false_iff] at hf
    simp only [ne_eq, freshLT, Bool.or_eq_true, Bool.and_eq_true, decide_eq_true_eq,
      beq_iff_eq] at hf
    omega
  have hsorted : (isortBy freshLT (rank1_rows s)).Pairwise (fun a b : Row =>
      b.last_used_at < a.last_used_at ∨
        (b.last_used_at = a.last_used_at ∧ b.created_at ≤ a.created_at)) :=
    (pairwise_isortBy freshLT_asymm freshLT_negtrans (rank1_rows s)).imp
      (fun hab => himpl _ _ hab)
  have hq : (list_query s limit).Pairwise (fun a b : Row =>
      b.last_used_at < a.last_used_at ∨
        (b.last_used_at = a.last_used_at ∧ b.created_at ≤ a.created_at)) := by
    cases limit with
    | none => exact hsorted
    | some n => exact List.Pairwise.sublist (List.take_sublist n _) hsorted
  rw [list]
  exact hq.map _ (fun a b hab => hab)

/-- C6, the claim as frozen, refuted: in a store state with three entries of
distinct prompts all tied on last-used and creation timestamps (reachable,
e.g. after one touch_entries batch over entries created in the same clock
tick), list returns the ids in an order that is ordered neither by ascending
nor by descending id, so no id tiebreak governs the remaining ties. -/
theorem list_ordered_counterexample :
    (list c6Store none).map (fun le => le.id) = ["m2", "m1", "m3"] ∧
      (list c6Store none).map (fun le => (le.last_used_at, le.created_at))
        = [(5, 5), (5, 5), (5, 5)] ∧
      ¬ List.Pairwise (fun a b : String => strLT a b = true) ["m2", "m1", "m3"] ∧
      ¬ List.Pairwise (fun a b : String => strLT b a = true) ["m2", "m1", "m3"] := by
  refine ⟨by decide, by decide, by decide, by decide⟩

end PHG
